import Mathlib

/-!
Verification of the fetch-statkart tile fetcher.

This file gives a shallow embedding of `fetch-statkart.py` — a program that
fetches rectangular grids of map tiles, caches them on disk under
`CACHE_DIR/layer/zoom/x/y`, and composites them into one RGBA image — and
proves properties of the embedded definitions.

The filesystem is modelled as a map from path strings to entries (regular
files with byte contents, or directories).  Python integer-to-string
conversion, `posixpath.join`, `posixpath.dirname` and `posixpath.basename`
are modelled character-for-character after their CPython definitions.
-/

namespace FetchStatkart

/-- Raw bytes, as the list of byte values. -/
abbrev Bytes := List Nat

/-- One filesystem entry: a regular file with its contents, or a directory. -/
inductive FsEntry where
  | file (contents : Bytes)
  | dir
deriving DecidableEq

/-- Filesystem state: each path string maps to at most one entry. -/
def Fs := String → Option FsEntry

/-- An empty filesystem. -/
def emptyFs : Fs := fun _ => none

/-- Set the entry at one path (used for file writes). -/
def setEntry (fs : Fs) (p : String) (e : FsEntry) : Fs :=
  fun q => if q = p then some e else fs q

/-- `os.rename(src, dst)`: the entry at `src` moves onto `dst` atomically. -/
def renameFs (fs : Fs) (src dst : String) : Fs :=
  fun q => if q = dst then fs src else if q = src then none else fs q

/-- `os.path.isdir(p)` (no symlinks in the model): a directory sits at `p`. -/
def isDirAt (fs : Fs) (p : String) : Bool :=
  match fs p with
  | some FsEntry.dir => true
  | _ => false

/-- Whether an optional entry is a regular file. -/
def isRegularFile (e : Option FsEntry) : Bool :=
  match e with
  | some (FsEntry.file _) => true
  | _ => false

/-! ### Python `str` on integers -/

/-- The decimal digit character for `d` (meaningful for `d < 10`). -/
def digitChar (d : Nat) : Char := Char.ofNat (48 + d)

/-- Big-endian decimal digits of `n`, with `fuel` bounding the recursion
(`fuel = n` is always enough). `natDigitsAux fuel 0 = []`. -/
def natDigitsAux : Nat → Nat → List Char
  | 0, _ => []
  | _ + 1, 0 => []
  | fuel + 1, n + 1 =>
      natDigitsAux fuel ((n + 1) / 10) ++ [digitChar ((n + 1) % 10)]

/-- Python `str` on a non-negative integer. -/
def pyStrNat (n : Nat) : String :=
  if n = 0 then "0" else String.mk (natDigitsAux n n)

/-- Python `str` on an integer (argparse `type=int` values). -/
def pyStr (i : Int) : String :=
  if i < 0 then "-" ++ pyStrNat i.natAbs else pyStrNat i.natAbs

/-- Decimal value of a big-endian digit-character list (left inverse used to
prove injectivity of `pyStrNat`). -/
def decimalVal (l : List Char) : Nat :=
  l.foldl (fun acc c => acc * 10 + (c.toNat - 48)) 0

/-! ### posixpath primitives -/

/-- Python `s.startswith(sep)` for the one-character separator. -/
def strStartsWithSlash (s : String) : Bool :=
  match s.data with
  | [] => false
  | c :: _ => c = '/'

/-- Python `s.endswith(sep)` for the one-character separator. -/
def strEndsWithSlash (s : String) : Bool :=
  match s.data.getLast? with
  | some c => c = '/'
  | none => false

/-- Whether a string contains the path separator. -/
def hasSlash (s : String) : Bool := s.data.any (fun c => c = '/')

/-- `posixpath.join(a, b)`: an absolute `b` replaces the path so far,
otherwise `b` is appended, inserting a separator unless the path so far is
empty or already ends in one. -/
def osPathJoin2 (a b : String) : String :=
  if strStartsWithSlash b then b
  else if a = "" || strEndsWithSlash a then a ++ b
  else a ++ "/" ++ b

/-- `p[0:i]` where `i` is just past the last separator of `p` (empty when
`p` has no separator); the head part of `posixpath.dirname`/`basename`. -/
def upToLastSep : List Char → List Char
  | [] => []
  | c :: cs =>
      if '/' ∈ cs then c :: upToLastSep cs
      else if c = '/' then [c] else []

/-- `p[i:]` where `i` is just past the last separator of `p`; the tail part
of `posixpath.basename`. -/
def afterLastSep : List Char → List Char
  | [] => []
  | c :: cs =>
      if '/' ∈ cs then afterLastSep cs
      else if c = '/' then cs else c :: cs

/-- Python `head.rstrip(sep)`: drop trailing separators. -/
def rstripSlash (l : List Char) : List Char :=
  (l.reverse.dropWhile (fun c => c = '/')).reverse

/-- `posixpath.dirname(p)`: everything up to the last separator, with
trailing separators stripped unless the head is empty or all separators. -/
def dirname (p : String) : String :=
  let head := upToLastSep p.data
  if head ≠ [] ∧ head.any (fun c => c ≠ '/') then String.mk (rstripSlash head)
  else String.mk head

/-- `posixpath.basename(p)`: everything after the last separator. -/
def basename (p : String) : String := String.mk (afterLastSep p.data)

/-! ### The Tile class -/

/-- A tile identity, as constructed by `Tile.__init__`. -/
structure Tile where
  layer : String
  zoom : Int
  x : Int
  y : Int
deriving DecidableEq

/-- The `os.path.join` prefix of `Tile.cache_path` before the final `y`
component, i.e. `os.path.join(CACHE_DIR, self.layer, str(self.zoom),
str(self.x))`.  The cache root (`CACHE_DIR`, derived in the source from the
script's install directory) is passed explicitly as `root`. -/
def Tile.cacheParent (t : Tile) (root : String) : String :=
  osPathJoin2 (osPathJoin2 (osPathJoin2 root t.layer) (pyStr t.zoom)) (pyStr t.x)

/-- `Tile.cache_path`: `os.path.join(CACHE_DIR, self.layer, str(self.zoom),
str(self.x), str(self.y))` (`posixpath.join` folds `osPathJoin2` over the
components left to right). -/
def Tile.cache_path (t : Tile) (root : String) : String :=
  osPathJoin2 (t.cacheParent root) (pyStr t.y)

/-- `Tile.is_cached`: `os.path.exists(self.cache_path)` — true when any
entry (regular file or directory) sits at the cache path. -/
def Tile.is_cached (t : Tile) (root : String) (fs : Fs) : Bool :=
  (fs (t.cache_path root)).isSome

/-! ### os.makedirs -/

/-- `q` lies strictly inside the directory `p` (its path extends `p ++ "/"`). -/
def underDir (p q : String) : Bool :=
  List.isPrefixOf (p.data ++ ['/']) q.data

/-- The ancestor-creation pass of `os.makedirs(path)`: missing ancestor
directories of `path` come into existence (`FileExistsError` on an ancestor
is suppressed by `makedirs` itself, so existing entries are untouched). -/
def createAncestors (fs : Fs) (path : String) : Fs :=
  fun p => if underDir p path && (fs p).isNone then some FsEntry.dir else fs p

/-- `os.makedirs(path)` with the default `exist_ok=False`: create missing
ancestors, then `mkdir(path)` itself, which raises `FileExistsError` when an
entry already exists at `path`.  Returns the resulting filesystem and
whether the call raised. -/
def makedirs (fs : Fs) (path : String) : Fs × Bool :=
  let fs' := createAncestors fs path
  if (fs path).isSome then (fs', true)
  else (fun p => if p = path then some FsEntry.dir else fs' p, false)

/-! ### Tile.fetch -/

/-- An HTTP response as seen by `requests.get`. -/
structure HttpResponse where
  status : Nat
  content : Bytes
deriving DecidableEq

/-- The environment one `Tile.fetch` call runs against: the outcome of its
`requests.get` (`none` = transport error raised), whether the temp-file
write completes, and the bytes left behind in the temp file if it fails
midway. -/
structure FetchEnv where
  response : Option HttpResponse
  writeOk : Bool
  partialContent : Bytes

/-- The exceptions a `Tile.fetch` call can raise. -/
inductive FetchError where
  | connectionError
  | httpStatusError (status : Nat)
  | fileExistsError
  | writeError
deriving DecidableEq

/-- `Tile.fetch`: GET the tile, `raise_for_status()` (which raises exactly
for 4xx/5xx statuses), ensure the cache directory exists
(`if not os.path.isdir(cache_dir): os.makedirs(cache_dir)`), write the body
to `cache_path + '.tmp'`, and `os.rename` the temp file onto `cache_path`.
Returns the filesystem after the call together with the exception it
raised, if any. -/
def Tile.fetch (t : Tile) (env : FetchEnv) (root : String) (fs : Fs) :
    Fs × Option FetchError :=
  match env.response with
  | none => (fs, some FetchError.connectionError)
  | some r =>
    if 400 ≤ r.status ∧ r.status < 600 then
      (fs, some (FetchError.httpStatusError r.status))
    else
      match if isDirAt fs (dirname (t.cache_path root)) then (fs, false)
            else makedirs fs (dirname (t.cache_path root)) with
      | (fs1, true) => (fs1, some FetchError.fileExistsError)
      | (fs1, false) =>
        if env.writeOk then
          (renameFs
            (setEntry fs1 (t.cache_path root ++ ".tmp") (FsEntry.file r.content))
            (t.cache_path root ++ ".tmp") (t.cache_path root), none)
        else
          (setEntry fs1 (t.cache_path root ++ ".tmp") (FsEntry.file env.partialContent),
           some FetchError.writeError)

/-! ### fetch_missing -/

/-- The observable outcome of one `fetch_missing(tiles)` call.
`dispatched` is the list of tiles submitted to the worker pool (one
`requests.get` each); `taskErrors` collects the exceptions raised inside the
dispatched tasks, in dispatch order — the source stores them in the
`Future` objects returned by `executor.submit` and never reads them;
`returned` is what the call itself gives back to its caller.  Each task is
modelled against the filesystem at dispatch time (tasks for distinct
coordinates touch distinct files; the directory-creation race is modelled
separately by `mkdirStep`/`runSched`). -/
structure FetchMissingRun where
  printed : List String
  dispatched : List Tile
  taskErrors : List FetchError
  returned : Except (List FetchError) Unit

/-- `fetch_missing(tiles)`: filter out cached tiles, print the count, submit
one `tile.fetch` task per missing tile, wait for the pool to drain, print
`Done`, and return `None`.  Exceptions inside tasks are captured in their
futures and never retrieved, so the call itself always returns normally. -/
def fetch_missing (envs : Tile → FetchEnv) (root : String) (fs : Fs)
    (tiles : List Tile) : FetchMissingRun :=
  let tiles_to_fetch := tiles.filter (fun t => !(t.is_cached root fs))
  { printed := ["Need to fetch " ++ pyStrNat tiles_to_fetch.length ++ " tiles",
                "Done"]
    dispatched := tiles_to_fetch
    taskErrors := tiles_to_fetch.filterMap (fun t => (t.fetch (envs t) root fs).2)
    returned := Except.ok () }

/-! ### The tile grid and the compositor (main) -/

/-- The parsed command-line arguments. -/
structure Args where
  layer : String
  zoom : Int
  x_min : Int
  y_min : Int
  x_max : Int
  y_max : Int

/-- Python `range(a, b)` over integers. -/
def intRange (a b : Int) : List Int :=
  (List.range (b - a).toNat).map (fun (i : Nat) => a + (i : Int))

/-- The tile list built by `main`'s nested loops: `y` outer over
`range(y_min, y_max + 1)`, `x` inner over `range(x_min, x_max + 1)`. -/
def gridTiles (args : Args) : List Tile :=
  (intRange args.y_min (args.y_max + 1)).flatMap (fun y =>
    (intRange args.x_min (args.x_max + 1)).map (fun x =>
      { layer := args.layer, zoom := args.zoom, x := x, y := y }))

/-- One RGBA pixel (band values; `a = 0` is fully transparent). -/
structure RGBA where
  r : Nat
  g : Nat
  b : Nat
  a : Nat
deriving DecidableEq

/-- An in-memory raster image: its size and its pixel grid. -/
structure Image where
  width : Int
  height : Int
  px : Int → Int → RGBA

/-- `PIL.Image.new(mode='RGBA', size=(w, h), color=None)`: Pillow allocates
fresh image memory zero-filled, so every pixel starts as `(0, 0, 0, 0)` —
fully transparent. -/
def imageNew (w h : Int) : Image :=
  { width := w, height := h, px := fun _ _ => { r := 0, g := 0, b := 0, a := 0 } }

/-- `image.paste(im=src, box=(tx, ty))` for RGBA into RGBA without a mask:
source pixels (alpha included) replace destination pixels on the source's
rectangle; everything else is untouched. -/
def imagePaste (dst src : Image) (tx ty : Int) : Image :=
  { dst with px := fun i j =>
      if tx ≤ i ∧ i < tx + src.width ∧ ty ≤ j ∧ j < ty + src.height then
        src.px (i - tx) (j - ty)
      else dst.px i j }

/-- The errors `PIL.Image.open(tile.cache_path)` can raise in the
compositing loop: `FileNotFoundError` when no entry exists at the path (the
spec's `NotCached`), `IsADirectoryError` when a directory sits there, and a
decode failure when the bytes are not a valid image. -/
inductive ComposeError where
  | notCached (path : String)
  | isADirectory (path : String)
  | decodeError (path : String)
deriving DecidableEq

/-- `PIL.Image.open` on one cache path: read the entry and decode its bytes
(`decode` abstracts Pillow's image decoding). -/
def loadTile (decode : Bytes → Option Image) (fs : Fs) (p : String) :
    Except ComposeError Image :=
  match fs p with
  | none => Except.error (ComposeError.notCached p)
  | some FsEntry.dir => Except.error (ComposeError.isADirectory p)
  | some (FsEntry.file bs) =>
      match decode bs with
      | none => Except.error (ComposeError.decodeError p)
      | some img => Except.ok img

/-- `main`'s compositing loop: for each tile in order, open its cache file
and paste it at `((tile.x - x_min) * 256, (tile.y - y_min) * 256)`. -/
def pasteTiles (decode : Bytes → Option Image) (root : String) (args : Args)
    (fs : Fs) : List Tile → Image → Except ComposeError Image
  | [], img => Except.ok img
  | t :: ts, img =>
      match loadTile decode fs (t.cache_path root) with
      | Except.error e => Except.error e
      | Except.ok ti =>
          pasteTiles decode root args fs ts
            (imagePaste img ti ((t.x - args.x_min) * 256) ((t.y - args.y_min) * 256))

/-- The compositing phase of `main`: allocate the
`((x_max - x_min + 1) * 256) x ((y_max - y_min + 1) * 256)` RGBA buffer and
paste every grid tile into it. -/
def compose (decode : Bytes → Option Image) (root : String) (args : Args)
    (fs : Fs) : Except ComposeError Image :=
  pasteTiles decode root args fs (gridTiles args)
    (imageNew ((args.x_max - args.x_min + 1) * 256) ((args.y_max - args.y_min + 1) * 256))

/-- The pixel region a tile's paste covers in the composite: the tile's
cache file loads successfully and `(i, j)` falls inside the pasted
rectangle at the tile's grid offset. -/
def covers (decode : Bytes → Option Image) (root : String) (args : Args)
    (fs : Fs) (t : Tile) (i j : Int) : Prop :=
  ∃ ti, loadTile decode fs (t.cache_path root) = Except.ok ti ∧
    (t.x - args.x_min) * 256 ≤ i ∧ i < (t.x - args.x_min) * 256 + ti.width ∧
    (t.y - args.y_min) * 256 ≤ j ∧ j < (t.y - args.y_min) * 256 + ti.height

/-! ### The directory-creation section of Tile.fetch, step by step

`Tile.fetch` runs `if not os.path.isdir(cache_dir): os.makedirs(cache_dir)`.
Under `fetch_missing`'s thread pool, two tasks whose tiles share a cache
directory interleave at the filesystem operations, so the section is split
at its two atomic operations: the `isdir` check and the `makedirs` call. -/

/-- A task's progress through the directory-creation section. -/
inductive MkdirPhase where
  | start
  | checked (sawDir : Bool)
  | done (failed : Bool)
deriving DecidableEq

/-- One atomic step of the directory-creation section for directory `d`. -/
def mkdirStep (d : String) : Fs × MkdirPhase → Fs × MkdirPhase
  | (fs, MkdirPhase.start) => (fs, MkdirPhase.checked (isDirAt fs d))
  | (fs, MkdirPhase.checked sawDir) =>
      if sawDir then (fs, MkdirPhase.done false)
      else
        match makedirs fs d with
        | (fs', failed) => (fs', MkdirPhase.done failed)
  | (fs, MkdirPhase.done b) => (fs, MkdirPhase.done b)

/-- Run two concurrent directory-creation sections (tasks `A` and `B`, both
targeting directory `d`) under a schedule: `true` steps task `A`, `false`
steps task `B`. -/
def runSched (d : String) : List Bool → Fs × MkdirPhase × MkdirPhase →
    Fs × MkdirPhase × MkdirPhase
  | [], s => s
  | pick :: rest, (fs, a, b) =>
      if pick then
        let s := mkdirStep d (fs, a)
        runSched d rest (s.1, s.2, b)
      else
        let s := mkdirStep d (fs, b)
        runSched d rest (s.1, a, s.2)

/-! ## Lemmas: decimal strings -/

theorem digitChar_ne_slash : ∀ d, d < 10 → digitChar d ≠ '/' := by decide

theorem digitChar_ne_dash : ∀ d, d < 10 → digitChar d ≠ '-' := by decide

theorem digitChar_val : ∀ d, d < 10 → (digitChar d).toNat - 48 = d := by decide

theorem mem_natDigitsAux :
    ∀ fuel n c, c ∈ natDigitsAux fuel n → ∃ d, d < 10 ∧ c = digitChar d := by
  intro fuel
  induction fuel with
  | zero => intro n c h; simp [natDigitsAux] at h
  | succ fuel ih =>
    intro n c h
    match n with
    | 0 => simp [natDigitsAux] at h
    | n + 1 =>
      simp only [natDigitsAux, List.mem_append, List.mem_singleton] at h
      rcases h with h | h
      · exact ih _ _ h
      · exact ⟨(n + 1) % 10, Nat.mod_lt _ (by norm_num), h⟩

theorem natDigitsAux_ne_nil (fuel n : Nat) (hn : n ≠ 0) (hf : fuel ≠ 0) :
    natDigitsAux fuel n ≠ [] := by
  match fuel, n with
  | fuel + 1, n + 1 => simp [natDigitsAux]

theorem decimalVal_append (l : List Char) (c : Char) :
    decimalVal (l ++ [c]) = decimalVal l * 10 + (c.toNat - 48) := by
  simp [decimalVal, List.foldl_append]

theorem decimalVal_natDigitsAux :
    ∀ fuel n, n ≤ fuel → decimalVal (natDigitsAux fuel n) = n := by
  intro fuel
  induction fuel with
  | zero => intro n hn; interval_cases n; simp [natDigitsAux, decimalVal]
  | succ fuel ih =>
    intro n hn
    match n with
    | 0 => simp [natDigitsAux, decimalVal]
    | n + 1 =>
      rw [natDigitsAux, decimalVal_append, ih _ ?le,
          digitChar_val _ (Nat.mod_lt _ (by norm_num))]
      · omega
      case le =>
        have : (n + 1) / 10 < n + 1 := Nat.div_lt_self (Nat.succ_pos n) (by norm_num)
        omega

theorem decimalVal_pyStrNat (n : Nat) : decimalVal (pyStrNat n).data = n := by
  unfold pyStrNat
  by_cases hn : n = 0
  · simp only [hn, reduceIte]; decide
  · simp only [hn, reduceIte]
    exact decimalVal_natDigitsAux n n le_rfl

theorem pyStrNat_inj {m n : Nat} (h : pyStrNat m = pyStrNat n) : m = n := by
  have := congrArg (fun s => decimalVal s.data) h
  simpa only [decimalVal_pyStrNat] using this

theorem slash_not_mem_pyStrNat (n : Nat) : '/' ∉ (pyStrNat n).data := by
  unfold pyStrNat
  by_cases hn : n = 0
  · simp only [hn, reduceIte]; decide
  · simp only [hn, reduceIte]
    intro hmem
    obtain ⟨d, hd, hc⟩ := mem_natDigitsAux n n _ hmem
    exact digitChar_ne_slash d hd hc.symm

theorem dash_not_mem_pyStrNat (n : Nat) : '-' ∉ (pyStrNat n).data := by
  unfold pyStrNat
  by_cases hn : n = 0
  · simp only [hn, reduceIte]; decide
  · simp only [hn, reduceIte]
    intro hmem
    obtain ⟨d, hd, hc⟩ := mem_natDigitsAux n n _ hmem
    exact digitChar_ne_dash d hd hc.symm

theorem pyStrNat_data_ne_nil (n : Nat) : (pyStrNat n).data ≠ [] := by
  unfold pyStrNat
  by_cases hn : n = 0
  · simp only [hn, reduceIte]; decide
  · simp only [hn, reduceIte]
    exact natDigitsAux_ne_nil n n hn hn

theorem slash_not_mem_pyStr (i : Int) : '/' ∉ (pyStr i).data := by
  unfold pyStr
  by_cases hi : i < 0
  · simp only [hi, reduceIte, String.data_append]
    intro hmem
    rcases List.mem_append.mp hmem with h | h
    · revert h; decide
    · exact slash_not_mem_pyStrNat _ h
  · simp only [hi, reduceIte]
    exact slash_not_mem_pyStrNat _

theorem pyStr_data_ne_nil (i : Int) : (pyStr i).data ≠ [] := by
  unfold pyStr
  by_cases hi : i < 0
  · simp only [hi, reduceIte, String.data_append]
    intro h
    exact absurd (List.append_eq_nil.mp h).1 (by decide)
  · simp only [hi, reduceIte]
    exact pyStrNat_data_ne_nil _

theorem pyStr_inj {i j : Int} (h : pyStr i = pyStr j) : i = j := by
  have hd : (pyStr i).data = (pyStr j).data := by rw [h]
  unfold pyStr at hd
  by_cases hi : i < 0 <;> by_cases hj : j < 0 <;>
    simp only [hi, hj, reduceIte, String.data_append] at hd
  · have : (pyStrNat i.natAbs).data = (pyStrNat j.natAbs).data :=
      List.append_cancel_left hd
    have : pyStrNat i.natAbs = pyStrNat j.natAbs := String.ext this
    have := pyStrNat_inj this
    omega
  · exfalso
    have : '-' ∈ (pyStrNat j.natAbs).data := by
      rw [← hd]
      exact List.mem_append_left _ (by decide)
    exact dash_not_mem_pyStrNat _ this
  · exfalso
    have : '-' ∈ (pyStrNat i.natAbs).data := by
      rw [hd]
      exact List.mem_append_left _ (by decide)
    exact dash_not_mem_pyStrNat _ this
  · have : pyStrNat i.natAbs = pyStrNat j.natAbs := String.ext hd
    have := pyStrNat_inj this
    omega

/-! ## Lemmas: posixpath -/

theorem mem_of_getLast? {α : Type} {l : List α} {a : α} (h : l.getLast? = some a) :
    a ∈ l := by
  induction l with
  | nil => simp at h
  | cons x t ih =>
    cases t with
    | nil => simp at h; simp [h]
    | cons y t' =>
      rw [List.getLast?_cons_cons] at h
      exact List.mem_cons_of_mem _ (ih h)

theorem isPrefixOf_length_le {l₁ l₂ : List Char} (h : List.isPrefixOf l₁ l₂ = true) :
    l₁.length ≤ l₂.length := by
  induction l₁ generalizing l₂ with
  | nil => simp
  | cons a t ih =>
    cases l₂ with
    | nil => simp [List.isPrefixOf] at h
    | cons b t₂ =>
      simp only [List.isPrefixOf, Bool.and_eq_true] at h
      simpa using ih h.2

theorem data_ne_nil_iff (s : String) : s.data ≠ [] ↔ s ≠ "" := by
  constructor
  · intro h h0
    rw [h0] at h
    exact h rfl
  · intro h hd
    exact h (String.ext hd)

theorem strStartsWithSlash_eq_false {s : String} (h : '/' ∉ s.data) :
    strStartsWithSlash s = false := by
  unfold strStartsWithSlash
  cases hs : s.data with
  | nil => rfl
  | cons c cs =>
    have hc : c ≠ '/' := by
      rw [hs] at h
      intro hc
      exact h (hc ▸ List.mem_cons_self c cs)
    simp [hc]

theorem strEndsWithSlash_append (a b : String) (hb : b.data ≠ []) :
    strEndsWithSlash (a ++ b) = strEndsWithSlash b := by
  unfold strEndsWithSlash
  rw [String.data_append, List.getLast?_append_of_ne_nil _ hb]

theorem strEndsWithSlash_eq_false {s : String} (h : '/' ∉ s.data) :
    strEndsWithSlash s = false := by
  unfold strEndsWithSlash
  cases hl : s.data.getLast? with
  | none => rfl
  | some c =>
    have hc : c ≠ '/' := fun hcc => h (hcc ▸ mem_of_getLast? hl)
    simp [hc]

theorem osPathJoin2_data_ne_nil (a b : String) (hb : b.data ≠ []) :
    (osPathJoin2 a b).data ≠ [] := by
  unfold osPathJoin2
  split
  · exact hb
  · split
    · rw [String.data_append]
      intro h
      exact hb (List.append_eq_nil.mp h).2
    · rw [String.data_append]
      intro h
      exact hb (List.append_eq_nil.mp h).2

theorem strEndsWithSlash_osPathJoin2 (a b : String) (hb : b.data ≠ []) :
    strEndsWithSlash (osPathJoin2 a b) = strEndsWithSlash b := by
  unfold osPathJoin2
  split
  · rfl
  · split
    · exact strEndsWithSlash_append a b hb
    · exact strEndsWithSlash_append _ b hb

theorem osPathJoin2_eq_sep_append (a b : String) (ha : a.data ≠ [])
    (hslash : strEndsWithSlash a = false) (hb : strStartsWithSlash b = false) :
    osPathJoin2 a b = a ++ "/" ++ b := by
  unfold osPathJoin2
  have ha' : a ≠ "" := (data_ne_nil_iff a).mp ha
  simp [hb, hslash, ha']

theorem strStartsWithSlash_pyStr (i : Int) : strStartsWithSlash (pyStr i) = false :=
  strStartsWithSlash_eq_false (slash_not_mem_pyStr i)

theorem strEndsWithSlash_pyStr (i : Int) : strEndsWithSlash (pyStr i) = false :=
  strEndsWithSlash_eq_false (slash_not_mem_pyStr i)

theorem cacheParent_data_ne_nil (t : Tile) (root : String) :
    (t.cacheParent root).data ≠ [] :=
  osPathJoin2_data_ne_nil _ _ (pyStr_data_ne_nil t.x)

theorem strEndsWithSlash_cacheParent (t : Tile) (root : String) :
    strEndsWithSlash (t.cacheParent root) = false := by
  unfold Tile.cacheParent
  rw [strEndsWithSlash_osPathJoin2 _ _ (pyStr_data_ne_nil t.x)]
  exact strEndsWithSlash_pyStr t.x

theorem cache_path_eq (t : Tile) (root : String) :
    t.cache_path root = t.cacheParent root ++ "/" ++ pyStr t.y :=
  osPathJoin2_eq_sep_append _ _ (cacheParent_data_ne_nil t root)
    (strEndsWithSlash_cacheParent t root) (strStartsWithSlash_pyStr t.y)

theorem cache_path_data (t : Tile) (root : String) :
    (t.cache_path root).data
      = (t.cacheParent root).data ++ '/' :: (pyStr t.y).data := by
  rw [cache_path_eq, String.data_append, String.data_append, List.append_assoc]
  rfl

theorem upToLastSep_append (a s : List Char) (hs : '/' ∉ s) :
    upToLastSep (a ++ '/' :: s) = a ++ ['/'] := by
  induction a with
  | nil => simp [upToLastSep, hs]
  | cons c cs ih =>
    have hmem : '/' ∈ cs ++ '/' :: s := List.mem_append_right _ (List.mem_cons_self _ _)
    simp only [List.cons_append, upToLastSep, List.append_eq]
    rw [if_pos hmem, ih]

theorem afterLastSep_append (a s : List Char) (hs : '/' ∉ s) :
    afterLastSep (a ++ '/' :: s) = s := by
  induction a with
  | nil => simp [afterLastSep, hs]
  | cons c cs ih =>
    have hmem : '/' ∈ cs ++ '/' :: s := List.mem_append_right _ (List.mem_cons_self _ _)
    simp only [List.cons_append, afterLastSep, List.append_eq]
    rw [if_pos hmem, ih]

theorem rstripSlash_append_slash (a : List Char) :
    rstripSlash (a ++ ['/']) = rstripSlash a := by
  unfold rstripSlash
  rw [List.reverse_append]
  simp [List.dropWhile_cons]

theorem rstripSlash_eq_self {a : List Char}
    (h : ∀ c, a.getLast? = some c → c ≠ '/') : rstripSlash a = a := by
  unfold rstripSlash
  cases ha : a.reverse with
  | nil =>
    have : a = [] := by simpa using congrArg List.reverse ha
    simp [this]
  | cons c r =>
    have hlast : a.getLast? = some c := by
      rw [← List.head?_reverse, ha]
      rfl
    have hc : c ≠ '/' := h c hlast
    rw [List.dropWhile_cons]
    simp only [hc, decide_eq_true_eq, if_false, reduceIte]
    rw [← ha, List.reverse_reverse]

theorem dirname_decomp {pre tail : List Char} (htail : '/' ∉ tail)
    (hpre_ne : pre ≠ []) (hpre_last : ∀ c, pre.getLast? = some c → c ≠ '/') :
    dirname (String.mk (pre ++ '/' :: tail)) = String.mk pre := by
  unfold dirname
  rw [show (String.mk (pre ++ '/' :: tail)).data = pre ++ '/' :: tail from rfl,
      upToLastSep_append pre tail htail]
  have hne : (pre ++ ['/'] : List Char) ≠ [] := by simp
  have hany : (pre ++ ['/']).any (fun c => c ≠ '/') = true := by
    obtain ⟨c, hc⟩ : ∃ c, pre.getLast? = some c := by
      cases hp : pre.getLast? with
      | none => exact absurd (List.getLast?_eq_none_iff.mp hp) hpre_ne
      | some c => exact ⟨c, rfl⟩
    refine List.any_eq_true.mpr ⟨c, List.mem_append_left _ (mem_of_getLast? hc), ?_⟩
    simp [hpre_last c hc]
  rw [if_pos ⟨hne, hany⟩]
  rw [rstripSlash_append_slash, rstripSlash_eq_self hpre_last]

theorem basename_decomp {pre tail : List Char} (htail : '/' ∉ tail) :
    basename (String.mk (pre ++ '/' :: tail)) = String.mk tail := by
  unfold basename
  rw [show (String.mk (pre ++ '/' :: tail)).data = pre ++ '/' :: tail from rfl,
      afterLastSep_append pre tail htail]

theorem cacheParent_getLast?_ne_slash (t : Tile) (root : String) :
    ∀ c, (t.cacheParent root).data.getLast? = some c → c ≠ '/' := by
  intro c hc hc'
  have h := strEndsWithSlash_cacheParent t root
  unfold strEndsWithSlash at h
  rw [hc, hc'] at h
  simp at h

theorem dirname_cache_path (t : Tile) (root : String) :
    dirname (t.cache_path root) = t.cacheParent root := by
  rw [String.ext (cache_path_data t root),
      dirname_decomp (slash_not_mem_pyStr t.y) (cacheParent_data_ne_nil t root)
        (cacheParent_getLast?_ne_slash t root)]

theorem basename_cache_path (t : Tile) (root : String) :
    basename (t.cache_path root) = pyStr t.y := by
  rw [String.ext (cache_path_data t root),
      basename_decomp (slash_not_mem_pyStr t.y)]

theorem dirname_tmp_eq (t : Tile) (root : String) :
    dirname (t.cache_path root ++ ".tmp") = dirname (t.cache_path root) := by
  have h : (t.cache_path root ++ ".tmp").data
      = (t.cacheParent root).data ++ '/' :: ((pyStr t.y).data ++ ".tmp".data) := by
    rw [String.data_append, cache_path_data, List.append_assoc]
    rfl
  have hnm : '/' ∉ (pyStr t.y).data ++ ".tmp".data := by
    intro hm
    rcases List.mem_append.mp hm with h1 | h1
    · exact slash_not_mem_pyStr t.y h1
    · revert h1; decide
  rw [String.ext h,
      dirname_decomp hnm (cacheParent_data_ne_nil t root)
        (cacheParent_getLast?_ne_slash t root),
      dirname_cache_path]

theorem cache_path_ne_parent (t : Tile) (root : String) :
    t.cache_path root ≠ t.cacheParent root := by
  intro h
  have hd := congrArg String.data h
  rw [cache_path_data] at hd
  have := congrArg List.length hd
  simp at this

theorem cache_path_ne_tmp (t : Tile) (root : String) :
    t.cache_path root ≠ t.cache_path root ++ ".tmp" := by
  intro h
  have hd := congrArg String.data h
  rw [String.data_append] at hd
  have := congrArg List.length hd
  simp at this

theorem not_underDir_cache_path_parent (t : Tile) (root : String) :
    ¬ underDir (t.cache_path root) (t.cacheParent root) = true := by
  intro h
  unfold underDir at h
  have hlen := isPrefixOf_length_le h
  have hd := congrArg List.length (cache_path_data t root)
  simp at hd hlen
  omega

theorem splitAtSlash_unique :
    ∀ (a : List Char) (a' r r' : List Char), '/' ∉ a → '/' ∉ a' →
      a ++ '/' :: r = a' ++ '/' :: r' → a = a' ∧ r = r' := by
  intro a
  induction a with
  | nil =>
    intro a' r r' _ ha' h
    cases a' with
    | nil => simpa using h
    | cons c cs =>
      simp only [List.nil_append, List.cons_append, List.cons.injEq] at h
      exact absurd (by rw [h.1]; exact List.mem_cons_self _ _) ha'
  | cons c cs ih =>
    intro a' r r' ha ha' h
    cases a' with
    | nil =>
      simp only [List.cons_append, List.nil_append, List.cons.injEq] at h
      exact absurd (by rw [← h.1]; exact List.mem_cons_self _ _) ha
    | cons c' cs' =>
      simp only [List.cons_append, List.cons.injEq] at h
      have hm : '/' ∉ cs := fun hmm => ha (List.mem_cons_of_mem _ hmm)
      have hm' : '/' ∉ cs' := fun hmm => ha' (List.mem_cons_of_mem _ hmm)
      obtain ⟨h1, h2⟩ := ih cs' r r' hm hm' h.2
      exact ⟨by rw [h.1, h1], h2⟩

theorem not_mem_of_hasSlash_eq_false {s : String} (h : hasSlash s = false) :
    '/' ∉ s.data := by
  intro hm
  unfold hasSlash at h
  rw [List.any_eq_false] at h
  exact absurd (by simp) (h '/' hm)

/-- The characters `posixpath.join` inserts between the cache root and the
first path component. -/
def rootSep (root : String) : List Char :=
  if root = "" || strEndsWithSlash root then [] else ['/']

theorem strEndsWithSlash_eq_false_of_data {s : String} {A B : List Char}
    (hs : s.data = A ++ B) (hB : B ≠ []) (hmem : '/' ∉ B) :
    strEndsWithSlash s = false := by
  unfold strEndsWithSlash
  rw [hs, List.getLast?_append_of_ne_nil _ hB]
  cases hl : B.getLast? with
  | none => rfl
  | some c =>
    have hc : c ≠ '/' := fun h => hmem (h ▸ mem_of_getLast? hl)
    simp [hc]

theorem osPathJoin2_sep_data (a b : String) (ha : a.data ≠ [])
    (hsl : strEndsWithSlash a = false) (hb : strStartsWithSlash b = false) :
    (osPathJoin2 a b).data = a.data ++ '/' :: b.data := by
  rw [osPathJoin2_eq_sep_append a b ha hsl hb, String.data_append,
      String.data_append, List.append_assoc]
  rfl

theorem osPathJoin2_root_layer_data (root l : String) (hl : '/' ∉ l.data) :
    (osPathJoin2 root l).data = (root.data ++ rootSep root) ++ l.data := by
  unfold osPathJoin2 rootSep
  rw [strStartsWithSlash_eq_false hl]
  by_cases hc : (root = "" || strEndsWithSlash root) = true
  · rw [if_neg (by simp), if_pos hc, if_pos hc, String.data_append, List.append_nil]
  · rw [if_neg (by simp), if_neg hc, if_neg hc, String.data_append,
        String.data_append, List.append_assoc]

theorem cacheParent_data (t : Tile) (root : String)
    (hl : hasSlash t.layer = false) (hne : t.layer ≠ "") :
    (t.cacheParent root).data
      = (root.data ++ rootSep root)
        ++ (t.layer.data ++ '/' :: ((pyStr t.zoom).data ++ '/' :: (pyStr t.x).data)) := by
  have hl' : '/' ∉ t.layer.data := not_mem_of_hasSlash_eq_false hl
  have hlne : t.layer.data ≠ [] := (data_ne_nil_iff t.layer).mpr hne
  have h1 : (osPathJoin2 root t.layer).data = (root.data ++ rootSep root) ++ t.layer.data :=
    osPathJoin2_root_layer_data root t.layer hl'
  have h1ne : (osPathJoin2 root t.layer).data ≠ [] := by
    rw [h1]
    intro h
    exact hlne (List.append_eq_nil.mp h).2
  have h1end : strEndsWithSlash (osPathJoin2 root t.layer) = false :=
    strEndsWithSlash_eq_false_of_data h1 hlne hl'
  have h2 : (osPathJoin2 (osPathJoin2 root t.layer) (pyStr t.zoom)).data
      = (osPathJoin2 root t.layer).data ++ '/' :: (pyStr t.zoom).data :=
    osPathJoin2_sep_data _ _ h1ne h1end (strStartsWithSlash_pyStr t.zoom)
  have h2ne : (osPathJoin2 (osPathJoin2 root t.layer) (pyStr t.zoom)).data ≠ [] := by
    rw [h2]
    intro h
    exact absurd (List.append_eq_nil.mp h).2 (by simp)
  have h2end : strEndsWithSlash (osPathJoin2 (osPathJoin2 root t.layer) (pyStr t.zoom)) = false := by
    refine strEndsWithSlash_eq_false_of_data
      (A := (osPathJoin2 root t.layer).data ++ ['/']) (B := (pyStr t.zoom).data)
      ?_ (pyStr_data_ne_nil t.zoom) (slash_not_mem_pyStr t.zoom)
    rw [h2, List.append_assoc]
    rfl
  have h3 : (t.cacheParent root).data
      = (osPathJoin2 (osPathJoin2 root t.layer) (pyStr t.zoom)).data
          ++ '/' :: (pyStr t.x).data :=
    osPathJoin2_sep_data _ _ h2ne h2end (strStartsWithSlash_pyStr t.x)
  rw [h3, h2, h1]
  simp [List.append_assoc]

/-! ## Claim C7 -/

/-- Claim C7: `cache_path` is the deterministic path
`cacheRoot/layer/zoom/x/y`: its directory component (`posixpath.dirname`)
is the join of the cache root with `layer`, `str(zoom)` and `str(x)` — the
same for every `y` and, for slash-free non-empty layer names, distinct for
distinct `(layer, zoom, x)` — and its filename component
(`posixpath.basename`) is exactly `str(y)`, so different `y` values at the
same `(layer, zoom, x)` never produce the same path. -/
theorem cache_path_layout (root : String) (t t' : Tile) :
    dirname (t.cache_path root) = t.cacheParent root
    ∧ basename (t.cache_path root) = pyStr t.y
    ∧ (hasSlash t.layer = false → t.layer ≠ "" →
        (t.cache_path root).data
          = (root.data ++ rootSep root)
            ++ (t.layer.data ++ '/' :: ((pyStr t.zoom).data
              ++ '/' :: ((pyStr t.x).data ++ '/' :: (pyStr t.y).data))))
    ∧ (t.layer = t'.layer → t.zoom = t'.zoom → t.x = t'.x →
        dirname (t.cache_path root) = dirname (t'.cache_path root))
    ∧ (t.layer = t'.layer → t.zoom = t'.zoom → t.x = t'.x → t.y ≠ t'.y →
        t.cache_path root ≠ t'.cache_path root)
    ∧ (hasSlash t.layer = false → t.layer ≠ "" →
       hasSlash t'.layer = false → t'.layer ≠ "" →
        dirname (t.cache_path root) = dirname (t'.cache_path root) →
        t.layer = t'.layer ∧ t.zoom = t'.zoom ∧ t.x = t'.x) := by
  refine ⟨dirname_cache_path t root, basename_cache_path t root, ?_, ?_, ?_, ?_⟩
  · intro hl hne
    rw [cache_path_data, cacheParent_data t root hl hne]
    simp [List.append_assoc]
  · intro h1 h2 h3
    rw [dirname_cache_path, dirname_cache_path]
    unfold Tile.cacheParent
    rw [h1, h2, h3]
  · intro h1 h2 h3 h4 hc
    have hp : t.cacheParent root = t'.cacheParent root := by
      unfold Tile.cacheParent
      rw [h1, h2, h3]
    have hd := congrArg String.data hc
    rw [cache_path_data, cache_path_data, hp] at hd
    have hy := List.append_cancel_left hd
    simp only [List.cons.injEq, true_and] at hy
    exact h4 (pyStr_inj (String.ext hy))
  · intro hl hne hl' hne' heq
    rw [dirname_cache_path, dirname_cache_path] at heq
    have hd := congrArg String.data heq
    rw [cacheParent_data t root hl hne, cacheParent_data t' root hl' hne'] at hd
    have h0 := List.append_cancel_left hd
    obtain ⟨hlayer, hrest⟩ := splitAtSlash_unique _ _ _ _
      (not_mem_of_hasSlash_eq_false hl) (not_mem_of_hasSlash_eq_false hl') h0
    obtain ⟨hzoom, hx⟩ := splitAtSlash_unique _ _ _ _
      (slash_not_mem_pyStr t.zoom) (slash_not_mem_pyStr t'.zoom) hrest
    exact ⟨String.ext hlayer, pyStr_inj (String.ext hzoom), pyStr_inj (String.ext hx)⟩

/-- Witness for C7 at concrete coordinates: with root `/c` and layer `a`,
the tiles `(a, 1, 2, 3)` and `(a, 1, 2, 4)` share a directory component but
have different cache paths. -/
theorem cache_path_layout_witness :
    dirname (Tile.cache_path { layer := "a", zoom := 1, x := 2, y := 3 } "/c")
        = Tile.cacheParent { layer := "a", zoom := 1, x := 2, y := 3 } "/c"
    ∧ dirname (Tile.cache_path { layer := "a", zoom := 1, x := 2, y := 3 } "/c")
        = dirname (Tile.cache_path { layer := "a", zoom := 1, x := 2, y := 4 } "/c")
    ∧ Tile.cache_path { layer := "a", zoom := 1, x := 2, y := 3 } "/c"
        ≠ Tile.cache_path { layer := "a", zoom := 1, x := 2, y := 4 } "/c" := by
  refine ⟨?_, ?_, ?_⟩
  · exact (cache_path_layout "/c" { layer := "a", zoom := 1, x := 2, y := 3 }
      { layer := "a", zoom := 1, x := 2, y := 4 }).1
  · exact (cache_path_layout "/c" { layer := "a", zoom := 1, x := 2, y := 3 }
      { layer := "a", zoom := 1, x := 2, y := 4 }).2.2.2.1 rfl rfl rfl
  · exact (cache_path_layout "/c" { layer := "a", zoom := 1, x := 2, y := 3 }
      { layer := "a", zoom := 1, x := 2, y := 4 }).2.2.2.2.1 rfl rfl rfl (by decide)

/-! ## Claim C1 -/

theorem createAncestors_cache_path (fs : Fs) (t : Tile) (root : String) :
    createAncestors fs (t.cacheParent root) (t.cache_path root)
      = fs (t.cache_path root) := by
  unfold createAncestors
  have h : underDir (t.cache_path root) (t.cacheParent root) = false :=
    Bool.eq_false_iff.mpr (not_underDir_cache_path_parent t root)
  rw [h]
  simp

theorem makedirs_cache_path (fs : Fs) (t : Tile) (root : String) :
    (makedirs fs (t.cacheParent root)).1 (t.cache_path root)
      = fs (t.cache_path root) := by
  unfold makedirs
  split
  · exact createAncestors_cache_path fs t root
  · simp only
    rw [if_neg (cache_path_ne_parent t root)]
    exact createAncestors_cache_path fs t root

theorem mkdirStage_cache_path (fs : Fs) (t : Tile) (root : String) :
    (if isDirAt fs (dirname (t.cache_path root)) then (fs, false)
     else makedirs fs (dirname (t.cache_path root))).1 (t.cache_path root)
      = fs (t.cache_path root) := by
  split
  · rfl
  · rw [dirname_cache_path]
    exact makedirs_cache_path fs t root

/-- Claim C1: `Tile.fetch` writes the body to `cache_path + '.tmp'`, a path
in the same directory as the canonical path, and only then renames it onto
`cache_path`; when the temp write fails, the call raises and the entry at
the canonical cache path is exactly what it was before — no file (in
particular no partial file) appears there. -/
theorem fetch_temp_write_failure_safe (t : Tile) (env : FetchEnv) (root : String)
    (fs : Fs) (h : env.writeOk = false) :
    (t.fetch env root fs).1 (t.cache_path root) = fs (t.cache_path root)
    ∧ (t.fetch env root fs).2 ≠ none
    ∧ dirname (t.cache_path root ++ ".tmp") = dirname (t.cache_path root) := by
  refine ⟨?_, ?_, dirname_tmp_eq t root⟩ <;>
  · unfold Tile.fetch
    cases henv : env.response with
    | none => simp
    | some r =>
      dsimp only
      by_cases hst : 400 ≤ r.status ∧ r.status < 600
      · first
        | (rw [if_pos hst]; simp)
        | rw [if_pos hst]
      · rw [if_neg hst]
        rcases hstep : (if isDirAt fs (dirname (t.cache_path root)) then (fs, false)
            else makedirs fs (dirname (t.cache_path root))) with ⟨fs1, b⟩
        have hfs1 : fs1 (t.cache_path root) = fs (t.cache_path root) := by
          have hv := congrArg (fun z => z.1 (t.cache_path root)) hstep
          simp only at hv
          rw [← hv]
          exact mkdirStage_cache_path fs t root
        cases b
        · dsimp only
          simp only [h, Bool.false_eq_true, if_false, reduceIte]
          first
          | (unfold setEntry
             rw [if_neg (cache_path_ne_tmp t root)]
             exact hfs1)
          | simp
        · dsimp only
          first
          | exact hfs1
          | simp

/-- The concrete tile used to witness claim C1. -/
def c1Tile : Tile := { layer := "l", zoom := 1, x := 2, y := 3 }

/-- The concrete environment used to witness claim C1: the GET succeeds with
status 200 but the temp-file write fails, leaving partial bytes `[9]`. -/
def c1Env : FetchEnv :=
  { response := some { status := 200, content := [1, 2, 3] }, writeOk := false,
    partialContent := [9] }

/-- Witness for C1: in a concrete failing-write run over an empty cache, the
canonical cache path stays empty, the call raises, and the temp path lives
in the same directory as the canonical path. -/
theorem fetch_temp_write_failure_safe_witness :
    c1Env.writeOk = false
    ∧ (c1Tile.fetch c1Env "/c" emptyFs).1 (c1Tile.cache_path "/c")
        = emptyFs (c1Tile.cache_path "/c")
    ∧ (c1Tile.fetch c1Env "/c" emptyFs).2 ≠ none
    ∧ dirname (c1Tile.cache_path "/c" ++ ".tmp") = dirname (c1Tile.cache_path "/c") := by
  have h := fetch_temp_write_failure_safe c1Tile c1Env "/c" emptyFs rfl
  exact ⟨rfl, h.1, h.2.1, h.2.2⟩

/-! ## Claim C8

The spec says `isCached(coord)` is true iff a regular file exists at
`cachePath(coord)`.  The source implements it with `os.path.exists`, which
is also true when the entry at the path is a directory, so the claim as
stated fails; the counterexample below exhibits a filesystem where
`is_cached` is true with no regular file at the path. -/

/-- The concrete tile used for the C8 counterexample and witness. -/
def c8Tile : Tile := { layer := "l", zoom := 1, x := 2, y := 3 }

/-- A filesystem with a directory — not a regular file — at `c8Tile`'s
cache path. -/
def c8Fs : Fs :=
  fun p => if p = c8Tile.cache_path "/c" then some FsEntry.dir else none

/-- Counterexample to C8 as stated: `is_cached` is true although no regular
file sits at the cache path (the entry there is a directory). -/
theorem is_cached_true_without_regular_file :
    c8Tile.is_cached "/c" c8Fs = true
    ∧ isRegularFile (c8Fs (c8Tile.cache_path "/c")) = false := by
  constructor
  · rfl
  · rfl

/-- Claim C8 (amended): `is_cached` is true iff any filesystem entry —
regular file or directory — exists at `cache_path` (`os.path.exists` does
not distinguish them); a regular file there does make it true, absence
makes it false, and the answer depends only on the presence of an entry,
never on its contents. -/
theorem is_cached_iff_entry_exists (t : Tile) (root : String) (fs : Fs) :
    (t.is_cached root fs = true ↔ (fs (t.cache_path root)).isSome)
    ∧ (∀ bs, fs (t.cache_path root) = some (FsEntry.file bs) →
        t.is_cached root fs = true)
    ∧ (fs (t.cache_path root) = none → t.is_cached root fs = false)
    ∧ (∀ fs' : Fs, (fs (t.cache_path root)).isSome = (fs' (t.cache_path root)).isSome →
        t.is_cached root fs = t.is_cached root fs') := by
  refine ⟨Iff.rfl, ?_, ?_, ?_⟩
  · intro bs hbs
    unfold Tile.is_cached
    rw [hbs]
    rfl
  · intro hnone
    unfold Tile.is_cached
    rw [hnone]
    rfl
  · intro fs' hsame
    unfold Tile.is_cached
    rw [hsame]

/-- Witness for C8 (amended) at a concrete input: a regular file at the
cache path makes `is_cached` true, and an empty filesystem makes it
false. -/
theorem is_cached_iff_entry_exists_witness :
    c8Tile.is_cached "/c"
        (fun p => if p = c8Tile.cache_path "/c" then some (FsEntry.file [5]) else none) = true
    ∧ c8Tile.is_cached "/c" emptyFs = false := by
  constructor
  · exact (is_cached_iff_entry_exists c8Tile "/c"
      (fun p => if p = c8Tile.cache_path "/c" then some (FsEntry.file [5]) else none)).2.1
      [5] (by simp)
  · exact (is_cached_iff_entry_exists c8Tile "/c" emptyFs).2.2.1 rfl

/-! ## Claim C2

The spec says `fetch_missing` reports failure to its caller when any
dispatched per-tile task fails, aggregating the individual errors.  The
source submits each `tile.fetch` to the executor and never touches the
returned futures; exceptions raised inside tasks are stored in those
futures and discarded, and the `with` block only waits for the pool to
drain.  `fetch_missing` therefore returns normally no matter how many tasks
failed, so the claim as stated fails. -/

/-- The concrete tile used for the C2 counterexample. -/
def c2Tile : Tile := { layer := "l", zoom := 1, x := 2, y := 3 }

/-- A per-tile environment whose `requests.get` raises a transport error,
so every dispatched task fails. -/
def c2Env : FetchEnv := { response := none, writeOk := true, partialContent := [] }

/-- Counterexample to C2 as stated: a run in which the single dispatched
task fails with a connection error, yet `fetch_missing` returns
successfully instead of reporting the failure. -/
theorem fetch_missing_swallows_task_failure :
    (fetch_missing (fun _ => c2Env) "/c" emptyFs [c2Tile]).taskErrors
        = [FetchError.connectionError]
    ∧ (fetch_missing (fun _ => c2Env) "/c" emptyFs [c2Tile]).returned
        = Except.ok () := by
  constructor
  · rfl
  · rfl

/-- Claim C2 (amended): `fetch_missing` waits for every dispatched task but
never inspects the task results, so it returns successfully to its caller
regardless of how many per-tile fetches failed; no aggregation of errors is
reported (failures surface only later, e.g. as missing cache entries during
composition). -/
theorem fetch_missing_returns_ok_regardless (envs : Tile → FetchEnv)
    (root : String) (fs : Fs) (tiles : List Tile) :
    (fetch_missing envs root fs tiles).returned = Except.ok () := rfl

/-! ## Claim C5 -/

/-- Claim C5: `fetch_missing` first partitions its input, keeping (in input
order) exactly the tiles that are not cached, reports that count in its
progress message, and dispatches one fetch task per missing tile and none
for any cached tile; when every input tile is already cached it dispatches
nothing — zero network requests — and reports a count of 0. -/
theorem fetch_missing_partition (envs : Tile → FetchEnv) (root : String)
    (fs : Fs) (tiles : List Tile) :
    (fetch_missing envs root fs tiles).dispatched
        = tiles.filter (fun t => !(t.is_cached root fs))
    ∧ (fetch_missing envs root fs tiles).printed
        = ["Need to fetch "
            ++ pyStrNat (fetch_missing envs root fs tiles).dispatched.length
            ++ " tiles", "Done"]
    ∧ (∀ t ∈ (fetch_missing envs root fs tiles).dispatched,
        t.is_cached root fs = false)
    ∧ (∀ t ∈ tiles, t.is_cached root fs = true →
        t ∉ (fetch_missing envs root fs tiles).dispatched)
    ∧ ((∀ t ∈ tiles, t.is_cached root fs = true) →
        (fetch_missing envs root fs tiles).dispatched = []
        ∧ (fetch_missing envs root fs tiles).printed
            = ["Need to fetch 0 tiles", "Done"]) := by
  refine ⟨rfl, rfl, ?_, ?_, ?_⟩
  · intro t ht
    have := (List.mem_filter.mp ht).2
    simpa using this
  · intro t ht hc hmem
    have := (List.mem_filter.mp hmem).2
    simp [hc] at this
  · intro hall
    have hnil : tiles.filter (fun t => !(t.is_cached root fs)) = [] := by
      rw [List.filter_eq_nil_iff]
      intro t ht
      simp [hall t ht]
    refine ⟨hnil, ?_⟩
    have hpr : (fetch_missing envs root fs tiles).printed
        = ["Need to fetch "
            ++ pyStrNat (tiles.filter (fun t => !(t.is_cached root fs))).length
            ++ " tiles", "Done"] := rfl
    rw [hpr, hnil]
    rfl

/-- Concrete tiles and environment for the C5 witness. -/
def c5TileA : Tile := { layer := "l", zoom := 1, x := 2, y := 3 }

/-- Second concrete tile for the C5 witness. -/
def c5TileB : Tile := { layer := "l", zoom := 1, x := 2, y := 4 }

/-- Per-tile fetch environment for the C5 witness. -/
def c5Env : FetchEnv := { response := none, writeOk := true, partialContent := [] }

/-- A filesystem caching exactly `c5TileA`. -/
def c5Fs : Fs :=
  fun p => if p = c5TileA.cache_path "/c" then some (FsEntry.file []) else none

/-- Witness for C5: with `c5TileA` cached and `c5TileB` missing, only
`c5TileB` is dispatched and the count message says 1; over the
fully-cached input `[c5TileA]` nothing is dispatched and the count is 0. -/
theorem fetch_missing_partition_witness :
    (fetch_missing (fun _ => c5Env) "/c" c5Fs [c5TileA, c5TileB]).dispatched
        = [c5TileA, c5TileB].filter (fun t => !(t.is_cached "/c" c5Fs))
    ∧ (∀ t ∈ [c5TileA, c5TileB], t.is_cached "/c" c5Fs = true →
        t ∉ (fetch_missing (fun _ => c5Env) "/c" c5Fs [c5TileA, c5TileB]).dispatched)
    ∧ (fetch_missing (fun _ => c5Env) "/c" c5Fs [c5TileA, c5TileB]).dispatched = [c5TileB]
    ∧ (fetch_missing (fun _ => c5Env) "/c" c5Fs [c5TileA, c5TileB]).printed
        = ["Need to fetch 1 tiles", "Done"]
    ∧ (fetch_missing (fun _ => c5Env) "/c" c5Fs [c5TileA]).dispatched = []
    ∧ (fetch_missing (fun _ => c5Env) "/c" c5Fs [c5TileA]).printed
        = ["Need to fetch 0 tiles", "Done"] := by
  refine ⟨(fetch_missing_partition (fun _ => c5Env) "/c" c5Fs [c5TileA, c5TileB]).1,
    (fetch_missing_partition (fun _ => c5Env) "/c" c5Fs [c5TileA, c5TileB]).2.2.2.1,
    rfl, rfl, ?_⟩
  have hall : ∀ t ∈ [c5TileA], t.is_cached "/c" c5Fs = true := by
    intro t ht
    have : t = c5TileA := by simpa using ht
    rw [this]
    rfl
  exact (fetch_missing_partition (fun _ => c5Env) "/c" c5Fs [c5TileA]).2.2.2.2 hall

/-! ## Claim C10 -/

theorem intRange_eq_nil {a b : Int} (h : b ≤ a) : intRange a b = [] := by
  unfold intRange
  have h0 : (b - a).toNat = 0 := by omega
  rw [h0]
  rfl

/-- Claim C10: for an inverted range (`x_min > x_max` or `y_min > y_max`)
the nested loops of `main` produce no tiles, so `fetch_missing` dispatches
no fetch task, reports a missing-tile count of 0, and no task raises —
no fetch or cache operation is attempted. -/
theorem inverted_range_no_work (args : Args) (envs : Tile → FetchEnv)
    (root : String) (fs : Fs)
    (h : args.x_max < args.x_min ∨ args.y_max < args.y_min) :
    gridTiles args = []
    ∧ (fetch_missing envs root fs (gridTiles args)).dispatched = []
    ∧ (fetch_missing envs root fs (gridTiles args)).printed
        = ["Need to fetch 0 tiles", "Done"]
    ∧ (fetch_missing envs root fs (gridTiles args)).taskErrors = [] := by
  have hnil : gridTiles args = [] := by
    unfold gridTiles
    rcases h with h | h
    · rw [intRange_eq_nil (show args.x_max + 1 ≤ args.x_min by omega)]
      simp
    · rw [intRange_eq_nil (show args.y_max + 1 ≤ args.y_min by omega)]
      rfl
  refine ⟨hnil, ?_, ?_, ?_⟩ <;> rw [hnil] <;> rfl

/-- Concrete inverted-range arguments (`x_min = 5 > 3 = x_max`) for the C10
witness. -/
def c10Args : Args :=
  { layer := "l", zoom := 1, x_min := 5, y_min := 0, x_max := 3, y_max := 0 }

/-- Witness for C10 at the concrete inverted range `x: 5..3, y: 0..0`. -/
theorem inverted_range_no_work_witness :
    (c10Args.x_max < c10Args.x_min ∨ c10Args.y_max < c10Args.y_min)
    ∧ gridTiles c10Args = []
    ∧ (fetch_missing (fun _ => c5Env) "/c" emptyFs (gridTiles c10Args)).dispatched = []
    ∧ (fetch_missing (fun _ => c5Env) "/c" emptyFs (gridTiles c10Args)).printed
        = ["Need to fetch 0 tiles", "Done"] := by
  have h := inverted_range_no_work c10Args (fun _ => c5Env) "/c" emptyFs
    (Or.inl (by decide))
  exact ⟨Or.inl (by decide), h.1, h.2.1, h.2.2.1⟩

/-! ## Claim C9

The spec demands that concurrent `store` calls for distinct coordinates
sharing a parent directory never fail because of a directory-creation
race: a directory that already exists, or that another task creates
concurrently, must be treated as success.  The source guards the creation
with `if not os.path.isdir(cache_dir): os.makedirs(cache_dir)` and calls
`os.makedirs` with its default `exist_ok=False`.  A directory that already
exists at check time is tolerated (the guard skips the call), but when a
sibling task creates the directory between one task's `isdir` check and
its `makedirs` call, that `makedirs` raises `FileExistsError` and the
task's store fails — exactly the race the spec rules out.  The theorem
below runs the two-task interleaving and shows the second task failing,
while the fully-sequential schedule of the same two tasks succeeds. -/

/-- Claim C9 (code bug, evaluated at the failing interleaving): tiles
`(l, 1, 2, 3)` and `(l, 1, 2, 4)` share one cache directory; over an empty
filesystem, the schedule in which both tasks run their `isdir` check before
either runs `makedirs` leaves task B failed with `FileExistsError`
(`MkdirPhase.done true`), whereas the sequential schedule leaves both tasks
succeeding — the failure is caused purely by the race the claim says cannot
fail. -/
theorem mkdir_race_second_task_fails :
    dirname (Tile.cache_path { layer := "l", zoom := 1, x := 2, y := 3 } "/c")
        = dirname (Tile.cache_path { layer := "l", zoom := 1, x := 2, y := 4 } "/c")
    ∧ (runSched (dirname (Tile.cache_path { layer := "l", zoom := 1, x := 2, y := 3 } "/c"))
          [true, false, true, false] (emptyFs, MkdirPhase.start, MkdirPhase.start)).2
        = (MkdirPhase.done false, MkdirPhase.done true)
    ∧ (runSched (dirname (Tile.cache_path { layer := "l", zoom := 1, x := 2, y := 3 } "/c"))
          [true, true, false, false] (emptyFs, MkdirPhase.start, MkdirPhase.start)).2
        = (MkdirPhase.done false, MkdirPhase.done false) := by
  exact ⟨rfl, rfl, rfl⟩

/-! ## Lemmas: the compositor -/

theorem imagePaste_width (dst src : Image) (tx ty : Int) :
    (imagePaste dst src tx ty).width = dst.width := rfl

theorem imagePaste_height (dst src : Image) (tx ty : Int) :
    (imagePaste dst src tx ty).height = dst.height := rfl

theorem pasteTiles_dims (decode : Bytes → Option Image) (root : String)
    (args : Args) (fs : Fs) :
    ∀ (ts : List Tile) (img out : Image),
      pasteTiles decode root args fs ts img = Except.ok out →
      out.width = img.width ∧ out.height = img.height := by
  intro ts
  induction ts with
  | nil =>
    intro img out h
    simp only [pasteTiles, Except.ok.injEq] at h
    rw [← h]
    exact ⟨rfl, rfl⟩
  | cons t ts ih =>
    intro img out h
    unfold pasteTiles at h
    cases hl : loadTile decode fs (t.cache_path root) with
    | error e =>
      rw [hl] at h
      exact absurd h (by simp)
    | ok ti =>
      rw [hl] at h
      exact (ih _ _ h).imp (fun hw => by rw [hw, imagePaste_width])
        (fun hh => by rw [hh, imagePaste_height])

theorem pasteTiles_px_untouched (decode : Bytes → Option Image) (root : String)
    (args : Args) (fs : Fs) (i j : Int) :
    ∀ (ts : List Tile) (img out : Image),
      pasteTiles decode root args fs ts img = Except.ok out →
      (∀ t ∈ ts, ¬ covers decode root args fs t i j) →
      out.px i j = img.px i j := by
  intro ts
  induction ts with
  | nil =>
    intro img out h _
    simp only [pasteTiles, Except.ok.injEq] at h
    rw [← h]
  | cons t ts ih =>
    intro img out h hnc
    unfold pasteTiles at h
    cases hl : loadTile decode fs (t.cache_path root) with
    | error e =>
      rw [hl] at h
      exact absurd h (by simp)
    | ok ti =>
      rw [hl] at h
      have hrest : ∀ t' ∈ ts, ¬ covers decode root args fs t' i j :=
        fun t' ht' => hnc t' (List.mem_cons_of_mem _ ht')
      rw [ih _ _ h hrest]
      unfold imagePaste
      dsimp only
      rw [if_neg ?hc]
      case hc =>
        intro hin
        exact hnc t (List.mem_cons_self _ _) ⟨ti, hl, hin⟩

theorem pasteTiles_px_covered (decode : Bytes → Option Image) (root : String)
    (args : Args) (fs : Fs) (i j : Int) (t0 : Tile) (ti : Image)
    (hload : loadTile decode fs (t0.cache_path root) = Except.ok ti)
    (hx1 : (t0.x - args.x_min) * 256 ≤ i)
    (hx2 : i < (t0.x - args.x_min) * 256 + ti.width)
    (hy1 : (t0.y - args.y_min) * 256 ≤ j)
    (hy2 : j < (t0.y - args.y_min) * 256 + ti.height) :
    ∀ (ts : List Tile) (img out : Image),
      pasteTiles decode root args fs ts img = Except.ok out →
      ts.Nodup → t0 ∈ ts →
      (∀ t' ∈ ts, t' ≠ t0 → ¬ covers decode root args fs t' i j) →
      out.px i j
        = ti.px (i - (t0.x - args.x_min) * 256) (j - (t0.y - args.y_min) * 256) := by
  intro ts
  induction ts with
  | nil =>
    intro img out _ _ hmem _
    simp at hmem
  | cons t ts ih =>
    intro img out h hnd hmem hnc
    unfold pasteTiles at h
    by_cases heq : t = t0
    · subst heq
      rw [hload] at h
      have hnotin : t ∉ ts := (List.nodup_cons.mp hnd).1
      have hrest : ∀ t' ∈ ts, ¬ covers decode root args fs t' i j := by
        intro t' ht'
        exact hnc t' (List.mem_cons_of_mem _ ht') (fun he => hnotin (he ▸ ht'))
      rw [pasteTiles_px_untouched decode root args fs i j ts _ _ h hrest]
      unfold imagePaste
      dsimp only
      rw [if_pos ⟨hx1, hx2, hy1, hy2⟩]
    · cases hl : loadTile decode fs (t.cache_path root) with
      | error e =>
        rw [hl] at h
        exact absurd h (by simp)
      | ok ti' =>
        rw [hl] at h
        have hmem' : t0 ∈ ts := by
          rcases List.mem_cons.mp hmem with h0 | h0
          · exact absurd h0.symm heq
          · exact h0
        exact ih _ _ h (List.nodup_cons.mp hnd).2 hmem'
          (fun t' ht' hne => hnc t' (List.mem_cons_of_mem _ ht') hne)

theorem loadTile_ok_elim {decode : Bytes → Option Image} {fs : Fs} {p : String}
    {ti : Image} (h : loadTile decode fs p = Except.ok ti) :
    ∃ bs, fs p = some (FsEntry.file bs) ∧ decode bs = some ti := by
  unfold loadTile at h
  cases hfs : fs p with
  | none =>
    rw [hfs] at h
    exact absurd h (by simp)
  | some e =>
    cases e with
    | dir =>
      rw [hfs] at h
      exact absurd h (by simp)
    | file bs =>
      rw [hfs] at h
      dsimp only at h
      cases hd : decode bs with
      | none =>
        rw [hd] at h
        exact absurd h (by simp)
      | some img =>
        rw [hd] at h
        simp only [Except.ok.injEq] at h
        exact ⟨bs, rfl, by rw [hd, h]⟩

theorem pasteTiles_notCached (decode : Bytes → Option Image) (root : String)
    (args : Args) (fs : Fs) :
    ∀ (ts : List Tile) (img : Image) (t0 : Tile), t0 ∈ ts →
      fs (t0.cache_path root) = none →
      (∀ t' ∈ ts, fs (t'.cache_path root) = none ∨
        ∃ im, loadTile decode fs (t'.cache_path root) = Except.ok im) →
      ∃ p, pasteTiles decode root args fs ts img
            = Except.error (ComposeError.notCached p) := by
  intro ts
  induction ts with
  | nil =>
    intro img t0 hmem
    simp at hmem
  | cons t ts ih =>
    intro img t0 hmem hnone hload
    by_cases hfs : fs (t.cache_path root) = none
    · refine ⟨t.cache_path root, ?_⟩
      unfold pasteTiles
      have hl : loadTile decode fs (t.cache_path root)
          = Except.error (ComposeError.notCached (t.cache_path root)) := by
        unfold loadTile
        rw [hfs]
      rw [hl]
    · rcases hload t (List.mem_cons_self _ _) with h0 | ⟨im, him⟩
      · exact absurd h0 hfs
      · unfold pasteTiles
        rw [him]
        have hmem' : t0 ∈ ts := by
          rcases List.mem_cons.mp hmem with h0 | h0
          · exact absurd (h0 ▸ hnone) hfs
          · exact h0
        exact ih _ t0 hmem' hnone (fun t' ht' => hload t' (List.mem_cons_of_mem _ ht'))

/-! ## Lemmas: the grid -/

theorem mem_intRange {a b t : Int} : t ∈ intRange a b ↔ a ≤ t ∧ t < b := by
  unfold intRange
  simp only [List.mem_map, List.mem_range]
  constructor
  · rintro ⟨i, hi, rfl⟩
    omega
  · rintro ⟨h1, h2⟩
    exact ⟨(t - a).toNat, by omega, by omega⟩

theorem mem_gridTiles {args : Args} {t : Tile} :
    t ∈ gridTiles args ↔
      t.layer = args.layer ∧ t.zoom = args.zoom
      ∧ args.x_min ≤ t.x ∧ t.x ≤ args.x_max
      ∧ args.y_min ≤ t.y ∧ t.y ≤ args.y_max := by
  unfold gridTiles
  simp only [List.mem_flatMap, List.mem_map, mem_intRange]
  constructor
  · rintro ⟨y, hy, x, hx, rfl⟩
    refine ⟨rfl, rfl, ?_, ?_, ?_, ?_⟩ <;> dsimp only <;> omega
  · rintro ⟨hl, hz, hx1, hx2, hy1, hy2⟩
    refine ⟨t.y, ⟨hy1, by omega⟩, t.x, ⟨hx1, by omega⟩, ?_⟩
    cases t
    simp_all

theorem intRange_nodup (a b : Int) : (intRange a b).Nodup := by
  unfold intRange
  refine List.Nodup.map ?_ (List.nodup_range _)
  intro i j hij
  dsimp only at hij
  omega

theorem gridTiles_nodup (args : Args) : (gridTiles args).Nodup := by
  unfold gridTiles
  rw [List.nodup_flatMap]
  constructor
  · intro y _
    refine List.Nodup.map ?_ (intRange_nodup _ _)
    intro x1 x2 h
    simpa using congrArg Tile.x h
  · refine List.Pairwise.imp ?_ (intRange_nodup args.y_min (args.y_max + 1))
    intro y1 y2 hne t ht1 ht2
    simp only [List.mem_map] at ht1 ht2
    obtain ⟨x1, _, rfl⟩ := ht1
    obtain ⟨x2, _, h2⟩ := ht2
    exact hne (by simpa using congrArg Tile.y h2.symm)

/-! ## Claim C3 -/

/-- Claim C3: for a valid `W x H` grid the compositor allocates an RGBA
buffer of exactly `(W*256) x (H*256)` pixels whose pixels start fully
transparent (`PIL.Image.new('RGBA', ..., color=None)` hands back zero-filled
image memory), so every pixel not covered by any pasted tile ends up
`(0, 0, 0, 0)` — fully transparent, not black or undefined. -/
theorem compose_size_and_transparency (decode : Bytes → Option Image)
    (root : String) (args : Args) (fs : Fs) (out : Image)
    (hx : args.x_min ≤ args.x_max) (hy : args.y_min ≤ args.y_max)
    (h : compose decode root args fs = Except.ok out) :
    out.width = (args.x_max - args.x_min + 1) * 256
    ∧ out.height = (args.y_max - args.y_min + 1) * 256
    ∧ ∀ i j : Int, (∀ t ∈ gridTiles args, ¬ covers decode root args fs t i j) →
        out.px i j = { r := 0, g := 0, b := 0, a := 0 } := by
  unfold compose at h
  refine ⟨?_, ?_, ?_⟩
  · rw [(pasteTiles_dims decode root args fs _ _ _ h).1]
    rfl
  · rw [(pasteTiles_dims decode root args fs _ _ _ h).2]
    rfl
  · intro i j hnc
    rw [pasteTiles_px_untouched decode root args fs i j _ _ _ h hnc]
    rfl

/-- Concrete arguments for the C3 witness: the 1x1 grid at `(7, 9)`. -/
def c3Args : Args :=
  { layer := "l", zoom := 1, x_min := 7, y_min := 9, x_max := 7, y_max := 9 }

/-- The single tile of the C3 witness grid. -/
def c3Tile : Tile := { layer := "l", zoom := 1, x := 7, y := 9 }

/-- A decoded 256x256 tile image for the C3 witness. -/
def c3TileImg : Image :=
  { width := 256, height := 256, px := fun _ _ => { r := 9, g := 9, b := 9, a := 255 } }

/-- A decoder mapping every byte string to `c3TileImg`. -/
def c3decode : Bytes → Option Image := fun _ => some c3TileImg

/-- A filesystem caching exactly the C3 witness tile. -/
def c3Fs : Fs :=
  fun p => if p = c3Tile.cache_path "/c" then some (FsEntry.file [0]) else none

/-- The image the C3 witness composition produces. -/
def c3out : Image :=
  match compose c3decode "/c" c3Args c3Fs with
  | Except.ok img => img
  | Except.error _ => imageNew 0 0

/-- Witness for C3: composing the concrete 1x1 grid succeeds, yields a
256x256 buffer, and every uncovered pixel is fully transparent. -/
theorem compose_size_and_transparency_witness :
    compose c3decode "/c" c3Args c3Fs = Except.ok c3out
    ∧ c3out.width = (c3Args.x_max - c3Args.x_min + 1) * 256
    ∧ c3out.height = (c3Args.y_max - c3Args.y_min + 1) * 256
    ∧ ∀ i j : Int, (∀ t ∈ gridTiles c3Args, ¬ covers c3decode "/c" c3Args c3Fs t i j) →
        c3out.px i j = { r := 0, g := 0, b := 0, a := 0 } := by
  have hc : compose c3decode "/c" c3Args c3Fs = Except.ok c3out := rfl
  have h := compose_size_and_transparency c3decode "/c" c3Args c3Fs c3out
    (by decide) (by decide) hc
  exact ⟨hc, h.1, h.2.1, h.2.2⟩

/-! ## Claim C6

The spec says any non-2xx response status is treated as a fetch failure.
The source calls `requests`' `raise_for_status()`, which raises exactly for
statuses in 400..599 — a non-2xx status outside that band (for example 304)
raises nothing, and `Tile.fetch` proceeds to cache the response body.  The
claim is therefore corrected to 4xx/5xx statuses; the spec's own example
(404) lies in that band. -/

/-- Concrete tile used for the C6 counterexample and witness. -/
def c6Tile : Tile := { layer := "l", zoom := 1, x := 2, y := 3 }

/-- Environment returning HTTP 304 (non-2xx, not 4xx/5xx) with body `[7]`. -/
def c6Env304 : FetchEnv :=
  { response := some { status := 304, content := [7] }, writeOk := true,
    partialContent := [] }

/-- Environment returning HTTP 404 with body `[7]`. -/
def c6Env404 : FetchEnv :=
  { response := some { status := 404, content := [7] }, writeOk := true,
    partialContent := [] }

/-- Arguments whose grid is exactly `[c6Tile]`. -/
def c6Args : Args :=
  { layer := "l", zoom := 1, x_min := 2, y_min := 3, x_max := 2, y_max := 3 }

/-- Counterexample to C6 as stated: status 304 is not 2xx, yet the fetch
raises nothing and a cache file with the response body appears at the
canonical path (`raise_for_status` raises only for 4xx/5xx). -/
theorem fetch_caches_on_304 :
    (¬ (200 ≤ (304 : Nat) ∧ (304 : Nat) < 300))
    ∧ (c6Tile.fetch c6Env304 "/c" emptyFs).2 = none
    ∧ (c6Tile.fetch c6Env304 "/c" emptyFs).1 (c6Tile.cache_path "/c")
        = some (FsEntry.file [7]) := by
  exact ⟨by decide, rfl, rfl⟩

/-- Claim C6 (amended): a remote fetch answered with a 4xx or 5xx status
(the spec's example, 404, included) raises `HTTPError` before any file
operation, so the filesystem — in particular the canonical cache path — is
completely untouched; if the tile was uncached, composing any grid that
contains it (and whose other tiles are either uncached or loadable) fails
with `NotCached`. -/
theorem fetch_4xx5xx_fails_and_notCached (t : Tile) (env : FetchEnv)
    (root : String) (fs : Fs) (r : HttpResponse)
    (henv : env.response = some r) (h4 : 400 ≤ r.status) (h6 : r.status < 600) :
    t.fetch env root fs = (fs, some (FetchError.httpStatusError r.status))
    ∧ ∀ (decode : Bytes → Option Image) (args : Args),
        fs (t.cache_path root) = none →
        t ∈ gridTiles args →
        (∀ t' ∈ gridTiles args, fs (t'.cache_path root) = none ∨
          ∃ im, loadTile decode fs (t'.cache_path root) = Except.ok im) →
        ∃ p, compose decode root args fs
              = Except.error (ComposeError.notCached p) := by
  constructor
  · unfold Tile.fetch
    rw [henv]
    dsimp only
    rw [if_pos ⟨h4, h6⟩]
  · intro decode args hnone hmem hload
    unfold compose
    exact pasteTiles_notCached decode root args fs (gridTiles args) _ t hmem hnone hload

/-- Witness for C6 (amended) at status 404 over an empty cache: the fetch
returns the filesystem unchanged with an `HTTPError`, and composing the
1x1 grid containing the tile fails with `NotCached`. -/
theorem fetch_4xx5xx_fails_and_notCached_witness :
    c6Tile.fetch c6Env404 "/c" emptyFs
        = (emptyFs, some (FetchError.httpStatusError 404))
    ∧ ∃ p, compose (fun _ => none) "/c" c6Args emptyFs
        = Except.error (ComposeError.notCached p) := by
  have h := fetch_4xx5xx_fails_and_notCached c6Tile c6Env404 "/c" emptyFs
    { status := 404, content := [7] } rfl (by decide) (by decide)
  refine ⟨h.1, h.2 (fun _ => none) c6Args rfl ?_ ?_⟩
  · decide
  · intro t' ht'
    exact Or.inl rfl

/-! ## Claim C4 -/

theorem intRange_length (a b : Int) : (intRange a b).length = (b - a).toNat := by
  unfold intRange
  rw [List.length_map, List.length_range]

theorem intRange_getElem? {a b : Int} {j : Nat} (hj : j < (b - a).toNat) :
    (intRange a b)[j]? = some (a + (j : Int)) := by
  unfold intRange
  rw [List.getElem?_map, List.getElem?_range hj]
  rfl

theorem flatMap_const_length {α β : Type} (f : α → List β) (W : Nat) :
    ∀ L : List α, (∀ a ∈ L, (f a).length = W) →
      (L.flatMap f).length = L.length * W := by
  intro L
  induction L with
  | nil => intro _; simp
  | cons a L ih =>
    intro h
    rw [List.flatMap_cons, List.length_append, h a (List.mem_cons_self _ _),
        ih (fun a ha => h a (List.mem_cons_of_mem _ ha)), List.length_cons]
    ring

theorem flatMap_const_getElem? {α β : Type} (f : α → List β) (W i : Nat)
    (hi : i < W) :
    ∀ L : List α, (∀ a ∈ L, (f a).length = W) → ∀ j : Nat,
      (L.flatMap f)[j * W + i]? = (L[j]?).bind (fun a => (f a)[i]?) := by
  intro L
  induction L with
  | nil => intro _ j; simp
  | cons a L ih =>
    intro h j
    rw [List.flatMap_cons]
    cases j with
    | zero =>
      have hlen : i < (f a).length := by
        rw [h a (List.mem_cons_self _ _)]
        exact hi
      rw [Nat.zero_mul, Nat.zero_add, List.getElem?_append_left hlen]
      simp
    | succ j =>
      have hW : (f a).length = W := h a (List.mem_cons_self _ _)
      have hle : (f a).length ≤ (j + 1) * W + i := by
        rw [hW, Nat.succ_mul]
        exact le_trans (Nat.le_add_left W (j * W)) (Nat.le_add_right _ i)
      rw [List.getElem?_append_right hle]
      have harith : (j + 1) * W + i - (f a).length = j * W + i := by
        rw [hW, Nat.succ_mul]
        omega
      rw [harith, ih (fun a ha => h a (List.mem_cons_of_mem _ ha)) j]
      simp

/-- Claim C4: the tile sequence of `main` is generated row-major — `y`
outer, `x` inner — so for a valid grid it has exactly
`(x_max-x_min+1)*(y_max-y_min+1)` elements and the element at flat index
`j*W + i` is the tile `(x_min+i, y_min+j)`; and each tile is pasted into
the composite at pixel offset `((x-x_min)*256, (y-y_min)*256)`: when
composition succeeds and tiles decode to 256x256 images, the composite
pixel at that offset plus `(u, v)` is the tile's own pixel `(u, v)` —
enumeration order matches final image placement. -/
theorem grid_row_major_and_placement (args : Args) (decode : Bytes → Option Image)
    (root : String) (fs : Fs) (out : Image)
    (hx : args.x_min ≤ args.x_max) (hy : args.y_min ≤ args.y_max)
    (hcomp : compose decode root args fs = Except.ok out)
    (hdec : ∀ bs im, decode bs = some im → im.width = 256 ∧ im.height = 256) :
    ((gridTiles args).length : Int)
        = (args.x_max - args.x_min + 1) * (args.y_max - args.y_min + 1)
    ∧ (∀ i j : Nat, i < (args.x_max - args.x_min + 1).toNat →
        j < (args.y_max - args.y_min + 1).toNat →
        (gridTiles args)[j * (args.x_max - args.x_min + 1).toNat + i]?
          = some { layer := args.layer, zoom := args.zoom,
                   x := args.x_min + (i : Int), y := args.y_min + (j : Int) })
    ∧ (∀ t ∈ gridTiles args, ∀ ti,
        loadTile decode fs (t.cache_path root) = Except.ok ti →
        ∀ u v : Int, 0 ≤ u → u < 256 → 0 ≤ v → v < 256 →
          out.px ((t.x - args.x_min) * 256 + u) ((t.y - args.y_min) * 256 + v)
            = ti.px u v) := by
  have hrow : ∀ y ∈ intRange args.y_min (args.y_max + 1),
      ((intRange args.x_min (args.x_max + 1)).map
        (fun x => ({ layer := args.layer, zoom := args.zoom, x := x, y := y } : Tile))).length
        = (args.x_max + 1 - args.x_min).toNat := by
    intro y _
    rw [List.length_map, intRange_length]
  refine ⟨?_, ?_, ?_⟩
  · unfold gridTiles
    rw [flatMap_const_length _ _ _ hrow, intRange_length, Nat.cast_mul]
    have e1 : (((args.y_max + 1 - args.y_min).toNat : Nat) : Int)
        = args.y_max + 1 - args.y_min := by omega
    have e2 : (((args.x_max + 1 - args.x_min).toNat : Nat) : Int)
        = args.x_max + 1 - args.x_min := by omega
    rw [e1, e2]
    ring
  · intro i j hi hj
    have hWW : (args.x_max - args.x_min + 1).toNat
        = (args.x_max + 1 - args.x_min).toNat := by omega
    have hi' : i < (args.x_max + 1 - args.x_min).toNat := by omega
    have hj' : j < (args.y_max + 1 - args.y_min).toNat := by omega
    unfold gridTiles
    rw [hWW, flatMap_const_getElem? _ _ _ hi' _ hrow j, intRange_getElem? hj']
    simp only [Option.some_bind]
    rw [List.getElem?_map, intRange_getElem? hi']
    rfl
  · intro t hmem ti hload u v hu0 hu hv0 hv
    obtain ⟨bs, hbs, hdecbs⟩ := loadTile_ok_elim hload
    obtain ⟨hw, hh⟩ := hdec bs ti hdecbs
    have hgrid := mem_gridTiles.mp hmem
    have hnc : ∀ t' ∈ gridTiles args, t' ≠ t →
        ¬ covers decode root args fs t' ((t.x - args.x_min) * 256 + u)
          ((t.y - args.y_min) * 256 + v) := by
      intro t' ht' hne hcov
      obtain ⟨ti', hload', c1, c2, c3, c4⟩ := hcov
      obtain ⟨bs', hbs', hdecbs'⟩ := loadTile_ok_elim hload'
      obtain ⟨hw', hh'⟩ := hdec bs' ti' hdecbs'
      have hgrid' := mem_gridTiles.mp ht'
      rw [hw'] at c2
      rw [hh'] at c4
      have hxx : t'.x = t.x := by omega
      have hyy : t'.y = t.y := by omega
      apply hne
      have hl : t'.layer = t.layer := by rw [hgrid'.1, hgrid.1]
      have hz : t'.zoom = t.zoom := by rw [hgrid'.2.1, hgrid.2.1]
      cases t
      cases t'
      simp_all
    unfold compose at hcomp
    have hres := pasteTiles_px_covered decode root args fs
      ((t.x - args.x_min) * 256 + u) ((t.y - args.y_min) * 256 + v) t ti hload
      (by omega) (by rw [hw]; omega) (by omega) (by rw [hh]; omega)
      (gridTiles args) _ out hcomp (gridTiles_nodup args) hmem hnc
    rw [hres]
    have hA : (t.x - args.x_min) * 256 + u - (t.x - args.x_min) * 256 = u := by omega
    have hB : (t.y - args.y_min) * 256 + v - (t.y - args.y_min) * 256 = v := by omega
    rw [hA, hB]

/-- Concrete arguments for the C4 witness: the 2x1 grid `x: 0..1, y: 0`. -/
def c4Args : Args :=
  { layer := "l", zoom := 1, x_min := 0, y_min := 0, x_max := 1, y_max := 0 }

/-- A decoded 256x256 tile image for the C4 witness. -/
def c4TileImg : Image :=
  { width := 256, height := 256, px := fun _ _ => { r := 1, g := 2, b := 3, a := 255 } }

/-- A decoder mapping every byte string to `c4TileImg`. -/
def c4decode : Bytes → Option Image := fun _ => some c4TileImg

/-- Left tile of the C4 witness grid. -/
def c4TileA : Tile := { layer := "l", zoom := 1, x := 0, y := 0 }

/-- Right tile of the C4 witness grid. -/
def c4TileB : Tile := { layer := "l", zoom := 1, x := 1, y := 0 }

/-- A filesystem caching both C4 witness tiles. -/
def c4Fs : Fs := fun p =>
  if p = c4TileA.cache_path "/c" then some (FsEntry.file [0])
  else if p = c4TileB.cache_path "/c" then some (FsEntry.file [1]) else none

/-- The image the C4 witness composition produces. -/
def c4out : Image :=
  match compose c4decode "/c" c4Args c4Fs with
  | Except.ok img => img
  | Except.error _ => imageNew 0 0

/-- Witness for C4: over the concrete 2x1 grid with both tiles cached, the
composition succeeds and the theorem's length, indexing and placement
conclusions hold. -/
theorem grid_row_major_and_placement_witness :
    compose c4decode "/c" c4Args c4Fs = Except.ok c4out
    ∧ ((gridTiles c4Args).length : Int)
        = (c4Args.x_max - c4Args.x_min + 1) * (c4Args.y_max - c4Args.y_min + 1)
    ∧ (∀ i j : Nat, i < (c4Args.x_max - c4Args.x_min + 1).toNat →
        j < (c4Args.y_max - c4Args.y_min + 1).toNat →
        (gridTiles c4Args)[j * (c4Args.x_max - c4Args.x_min + 1).toNat + i]?
          = some { layer := c4Args.layer, zoom := c4Args.zoom,
                   x := c4Args.x_min + (i : Int), y := c4Args.y_min + (j : Int) })
    ∧ (∀ t ∈ gridTiles c4Args, ∀ ti,
        loadTile c4decode c4Fs (t.cache_path "/c") = Except.ok ti →
        ∀ u v : Int, 0 ≤ u → u < 256 → 0 ≤ v → v < 256 →
          c4out.px ((t.x - c4Args.x_min) * 256 + u) ((t.y - c4Args.y_min) * 256 + v)
            = ti.px u v) := by
  have hdec : ∀ bs im, c4decode bs = some im → im.width = 256 ∧ im.height = 256 := by
    intro bs im h
    cases h
    exact ⟨rfl, rfl⟩
  have hc : compose c4decode "/c" c4Args c4Fs = Except.ok c4out := rfl
  have h := grid_row_major_and_placement c4Args c4decode "/c" c4Fs c4out
    (by decide) (by decide) hc hdec
  exact ⟨hc, h.1, h.2.1, h.2.2⟩

end FetchStatkart
